import Mathlib

/-!
Shallow embedding of the BioMassters download/resolve scripts
(`src/utils.py` and `src/downloader.py`) and proofs about them.

Python strings are modelled as Lean `String`; `str.startswith`,
substring containment (`in`) and `os.path.join` are modelled by
executable functions on the underlying character lists.  Filesystem
state (which paths exist) is threaded explicitly; exceptions become
`Except PyErr`.  Network fetches and skip decisions are recorded as an
event trace.
-/

/-- Model of `str.startswith` at the character-list level:
`hasPrefixL pat l` is true when `pat` is an initial segment of `l`. -/
def hasPrefixL : List Char → List Char → Bool
  | [], _ => true
  | _ :: _, [] => false
  | a :: as, b :: bs => a == b && hasPrefixL as bs

/-- Model of Python substring containment (`sub in s`) at the
character-list level. -/
def hasInfixL (sub : List Char) : List Char → Bool
  | [] => sub.isEmpty
  | c :: cs => hasPrefixL sub (c :: cs) || hasInfixL sub cs

/-- Model of `str.startswith`. -/
def strStartsWith (s pat : String) : Bool := hasPrefixL pat.data s.data

/-- Model of Python `sub in s`. -/
def strContains (s sub : String) : Bool := hasInfixL sub.data s.data

/-- Character-list core of `os.path.join` for two components on a
posix system: the right component wins if absolute, otherwise a `/`
separator is inserted unless the left part is empty or already ends
with `/`. -/
def joinL (a b : List Char) : List Char :=
  if hasPrefixL [Char.ofNat 47] b then b
  else if a.isEmpty then b
  else if hasPrefixL [Char.ofNat 47] a.reverse then a ++ b
  else a ++ Char.ofNat 47 :: b

/-- Model of `os.path.join` on two arguments. -/
def pathJoin (a b : String) : String := String.mk (joinL a.data b.data)

/-- Model of `os.path.join(a, b, c)` (left-associated). -/
def pathJoin3 (a b c : String) : String := pathJoin (pathJoin a b) c

/-- Worker for Python `str.split(sep)` with non-empty `sep`: scan left
to right, cutting at each non-overlapping occurrence of `sep`.  The
`Nat` argument is fuel (any value at least the list length gives the
Python behaviour; each step consumes at least one character). -/
def splitLAux (sep : List Char) : Nat → List Char → List Char → List (List Char)
  | _, [], acc => [acc.reverse]
  | 0, l, acc => [acc.reverse ++ l]
  | n + 1, c :: cs, acc =>
    if hasPrefixL sep (c :: cs) then
      acc.reverse :: splitLAux sep n (List.drop sep.length (c :: cs)) []
    else splitLAux sep n cs (c :: acc)

/-- Model of Python `s.split(sep)` for a non-empty separator (the
source only splits on `"//"` and `"/"`). -/
def pySplit (s sep : String) : List String :=
  (splitLAux sep.data s.data.length s.data []).map String.mk

/-- Model of Python `"/".join(parts)`. -/
def joinSlash (parts : List String) : String :=
  String.mk (List.intercalate [Char.ofNat 47] (parts.map String.data))

/-- Python exceptions raised by the modelled code. -/
inductive PyErr where
  | keyErr (key : String)
  | valueErr (msg : String)
  | indexErr
  deriving Repr, DecidableEq

/-! ## `src/utils.py` -/

/-- Default of `os.getenv('AGB_DATA', "./data/agb")` (env unset). -/
def AGB_FOLDER : String := "./data/agb"

/-- Default of `os.getenv('TRAIN_DATA', "./data/train")` (env unset). -/
def TRAIN_FOLDER : String := "./data/train"

/-- The visible directory contents: results of `os.listdir` on the two
data folders. -/
structure Listing where
  agbDir : List String
  trainDir : List String

/-- The `'AGB'` closure of `platformToFiles`:
`[os.path.join(AGB_FOLDER, f) for f in os.listdir(AGB_FOLDER) if f.startswith(chip)]`. -/
def agbFiles (ls : Listing) (chip : String) : List String :=
  (ls.agbDir.filter (fun f => strStartsWith f chip)).map (fun f => pathJoin AGB_FOLDER f)

/-- The `'S1'` closure of `platformToFiles`: files of the train folder
whose name starts with the chip id and contains `"S1"`. -/
def s1Files (ls : Listing) (chip : String) : List String :=
  (ls.trainDir.filter (fun f => strStartsWith f chip && strContains f "S1")).map
    (fun f => pathJoin TRAIN_FOLDER f)

/-- The `'S2'` closure of `platformToFiles`: files of the train folder
whose name starts with the chip id and contains `"S2"`. -/
def s2Files (ls : Listing) (chip : String) : List String :=
  (ls.trainDir.filter (fun f => strStartsWith f chip && strContains f "S2")).map
    (fun f => pathJoin TRAIN_FOLDER f)

/-- The module-level dictionary `platformToFiles` with keys
`'AGB'`, `'S1'`, `'S2'`, as a lookup function (`none` = key absent). -/
def platformToFiles (k : String) : Option (Listing → String → List String) :=
  if k = "AGB" then some agbFiles
  else if k = "S1" then some s1Files
  else if k = "S2" then some s2Files
  else none

/-- Python dictionary subscript `platformToFiles[k]`: raises
`KeyError(k)` when the key is absent. -/
def dictGet (k : String) : Except PyErr (Listing → String → List String) :=
  match platformToFiles k with
  | some f => Except.ok f
  | none => Except.error (PyErr.keyErr k)

/-- An ASCII single quote, for rendering Python `repr` output. -/
def sglq : String := String.mk [Char.ofNat 39]

/-- Rendering of `platformToFiles.keys()` as interpolated into the
error f-string. -/
def keysRepr : String :=
  "dict_keys([" ++ sglq ++ "AGB" ++ sglq ++ ", " ++ sglq ++ "S1" ++ sglq ++ ", " ++ sglq ++ "S2" ++ sglq ++ "])"

/-- `getFilesForChip(chip, platform)` from `src/utils.py`.  With
`platform=None` the source subscripts the dictionary with the
lowercase keys `'agb'`, `'s1'`, `'s2'`; with a platform given it
returns the matching closure applied to the chip, or raises
`ValueError` naming the platform and `platformToFiles.keys()`. -/
def getFilesForChip (ls : Listing) (chip : String) (platform : Option String) :
    Except PyErr (List String) :=
  match platform with
  | none => do
    let f1 ← dictGet "agb"
    let f2 ← dictGet "s1"
    let f3 ← dictGet "s2"
    Except.ok (f1 ls chip ++ f2 ls chip ++ f3 ls chip)
  | some p =>
    match platformToFiles p with
    | some f => Except.ok (f ls chip)
    | none =>
      Except.error (PyErr.valueErr
        ("Platform " ++ p ++ " not found, must be one of " ++ keysRepr))

/-! ## `src/downloader.py` -/

/-- One row of `features_metadata.csv` or `train_agbm_metadata.csv`
(the columns the downloader touches, plus `size` and `cksum`). -/
structure Row where
  chip_id : String
  filename : String
  size : Nat
  cksum : Nat
  s3path_us : String
  s3path_eu : String
  s3path_as : String
  deriving Repr, DecidableEq

/-- `row[f"s3path_{region}"]`: dynamic column access; an unknown
region is a missing key. -/
def s3pathField (row : Row) (region : String) : Except PyErr String :=
  if region = "us" then Except.ok row.s3path_us
  else if region = "eu" then Except.ok row.s3path_eu
  else if region = "as" then Except.ok row.s3path_as
  else Except.error (PyErr.keyErr ("s3path_" ++ region))

/-- Python list subscript `xs[i]`: `IndexError` when out of range. -/
def pyIndex (xs : List String) (i : Nat) : Except PyErr String :=
  match xs.get? i with
  | some v => Except.ok v
  | none => Except.error PyErr.indexErr

/-- `s3path.split("//")[1].split("/")[0]` — the bucket name. -/
def parseBucket (s3path : String) : Except PyErr String := do
  let tail ← pyIndex (pySplit s3path "//") 1
  pyIndex (pySplit tail "/") 0

/-- `"/".join(s3path.split("//")[1].split("/")[1:])` — the object key. -/
def parseKey (s3path : String) : Except PyErr String := do
  let tail ← pyIndex (pySplit s3path "//") 1
  Except.ok (joinSlash ((pySplit tail "/").drop 1))

/-- Observable actions of `downloadFile`: an S3 fetch into a local
path, or the informational skip when the path already exists. -/
inductive Event where
  | fetch (bucket key filepath : String)
  | skip (filepath : String)
  deriving Repr, DecidableEq

/-- The local path an event writes to or found present. -/
def eventPath : Event → String
  | Event.fetch _ _ p => p
  | Event.skip p => p

/-- `true` exactly on network fetches. -/
def isFetch : Event → Bool
  | Event.fetch _ _ _ => true
  | Event.skip _ => false

/-- Number of network fetches in a trace. -/
def fetchCount (evs : List Event) : Nat := (evs.filter isFetch).length

/-- Local filesystem state seen by the downloader: the set of paths
for which `os.path.exists` answers true, as a list. -/
structure FilesSt where
  files : List String
  deriving Repr, DecidableEq

/-- `downloadFile(row, download_dir, region, folder)`: resolve the
region URI into bucket and key, compute the local target
`os.path.join(download_dir, folder, filename)`, then fetch only when
the target does not already exist (`s3.download_file` makes the path
exist).  Returns the new filesystem state and the trace. -/
def downloadFile (row : Row) (download_dir region folder : String) (st : FilesSt) :
    Except PyErr (FilesSt × List Event) := do
  let filename := row.filename
  let s3path0 ← s3pathField row region
  let bucket ← parseBucket s3path0
  let key ← parseKey s3path0
  let filepath := pathJoin3 download_dir folder filename
  if st.files.contains filepath then
    Except.ok (st, [Event.skip filepath])
  else
    Except.ok (⟨filepath :: st.files⟩, [Event.fetch bucket key filepath])

/-- `metadata[metadata.chip_id == chip_id]`: the rows whose `chip_id`
column equals the requested id, in metadata order. -/
def selectRows (metadata : List Row) (chip_id : String) : List Row :=
  metadata.filter (fun r => r.chip_id == chip_id)

/-- Sequential download of a list of metadata rows (the `iterrows`
loop body of `downloadFilesForChipId`), threading filesystem state and
concatenating traces. -/
def downloadRows (rows : List Row) (download_dir region folder : String) (st : FilesSt) :
    Except PyErr (FilesSt × List Event) :=
  match rows with
  | [] => Except.ok (st, [])
  | r :: rest => do
    let (st1, evs1) ← downloadFile r download_dir region folder st
    let (st2, evs2) ← downloadRows rest download_dir region folder st1
    Except.ok (st2, evs1 ++ evs2)

/-- `downloadFilesForChipId(chip_id, download_dir, metadata, region, folder)`:
download every metadata row whose `chip_id` equals the given id. -/
def downloadFilesForChipId (chip_id download_dir : String) (metadata : List Row)
    (region folder : String) (st : FilesSt) : Except PyErr (FilesSt × List Event) :=
  downloadRows (selectRows metadata chip_id) download_dir region folder st

/-- Directory state seen by `checkForDownloadDir`: the directories for
which `os.path.exists` answers true. -/
structure DirsSt where
  dirs : List String
  deriving Repr, DecidableEq

/-- One `if not os.path.exists(p): os.makedirs(p)` block: create `p`
only when absent, recording the `os.makedirs` call. -/
def ensureDir (p : String) (acc : DirsSt × List String) : DirsSt × List String :=
  if acc.1.dirs.contains p then acc
  else (⟨p :: acc.1.dirs⟩, acc.2 ++ [p])

/-- `checkForDownloadDir(download_dir)`: create the root, then
`train_features`, then `train_agbm`, each only when absent.  Returns
the new directory state and the list of `os.makedirs` calls made. -/
def checkForDownloadDir (download_dir : String) (st : DirsSt) : DirsSt × List String :=
  ensureDir (pathJoin download_dir "train_agbm")
    (ensureDir (pathJoin download_dir "train_features")
      (ensureDir download_dir (st, [])))

/-- `agbm_metadata.sample(n=n)`: random sampling without replacement,
modelled by an externally chosen list of row indices (distinctness and
in-range-ness are hypotheses where needed); `n` is the number of
indices drawn. -/
def sample (rows : List Row) (idxs : List Nat) : List Row :=
  idxs.filterMap (fun i => rows.get? i)

/-- The `for _, row in agbm_metadata.iterrows()` loop of
`downloadNChips`: for each sampled ground-truth row, download all
matching feature rows into `train_features`, then the row itself into
`train_agbm`. -/
def downloadChipsLoop (sampled : List Row) (download_dir region : String)
    (features : List Row) (st : FilesSt) : Except PyErr (FilesSt × List Event) :=
  match sampled with
  | [] => Except.ok (st, [])
  | row :: rest => do
    let (st1, evs1) ← downloadFilesForChipId row.chip_id download_dir features region
      "train_features" st
    let (st2, evs2) ← downloadFile row download_dir region "train_agbm" st1
    let (st3, evs3) ← downloadChipsLoop rest download_dir region features st2
    Except.ok (st3, evs1 ++ evs2 ++ evs3)

/-- `downloadNChips(n, download_dir, region)`: ensure the directory
layout, sample the ground-truth metadata, and run the per-chip loop.
The two metadata tables are parameters (the CSV contents) and the
random sample is the index list `idxs`.  Returns the directory state,
the `os.makedirs` calls, the file state and the download trace. -/
def downloadNChips (idxs : List Nat) (agbm features : List Row)
    (download_dir region : String) (dirSt : DirsSt) (st : FilesSt) :
    Except PyErr (DirsSt × List String × FilesSt × List Event) := do
  let (dirSt1, made) := checkForDownloadDir download_dir dirSt
  let sampled := sample agbm idxs
  let (st1, evs) ← downloadChipsLoop sampled download_dir region features st
  Except.ok (dirSt1, made, st1, evs)

/-- The metadata row of the spec scenario: chip `001b0634`, feature
file `001b0634_S1_00.tif`, with the eu-region URI of the claim (size
and cksum are the published values for that file). -/
def scenarioRow : Row :=
  ⟨"001b0634", "001b0634_S1_00.tif", 1049524, 3250666344,
   "s3://us-bucket/train_features/001b0634_S1_00.tif",
   "s3://bucket/train_features/001b0634_S1_00.tif",
   "s3://as-bucket/train_features/001b0634_S1_00.tif"⟩

/-- Model of `str.endswith` (used to state when `os.path.join` inserts
a separator). -/
def strEndsWith (s pat : String) : Bool := hasPrefixL pat.data.reverse s.data.reverse

/-! ## Helper lemmas about the string model -/

theorem hasPrefixL_append (xs ys : List Char) : hasPrefixL xs (xs ++ ys) = true := by
  induction xs with
  | nil => rfl
  | cons a as ih => simp [hasPrefixL, ih]

theorem hasInfixL_nil (l : List Char) : hasInfixL [] l = true := by
  cases l <;> simp [hasInfixL, hasPrefixL, List.isEmpty]

theorem hasInfixL_sandwich (sub pre post : List Char) :
    hasInfixL sub (pre ++ sub ++ post) = true := by
  induction pre with
  | nil =>
    cases sub with
    | nil => simpa using hasInfixL_nil post
    | cons c cs =>
      simp only [List.nil_append, List.cons_append, hasInfixL]
      have : hasPrefixL (c :: cs) (c :: (cs ++ post)) = true := by
        simpa using hasPrefixL_append (c :: cs) post
      simp [this]
  | cons p ps ih =>
    simp only [List.cons_append, hasInfixL, List.append_eq, ih, Bool.or_true]

theorem hasInfixL_append_left (sub l pre : List Char) (h : hasInfixL sub l = true) :
    hasInfixL sub (pre ++ l) = true := by
  induction pre with
  | nil => simpa using h
  | cons p ps ih => simp only [List.cons_append, hasInfixL, List.append_eq, ih, Bool.or_true]

/-- C1 counter-evidence: with no platform filter, `getFilesForChip`
raises `KeyError` on the lowercase key `agb` (the dictionary keys are
uppercase), for every listing and every chip id, instead of returning
the AGB ++ S1 ++ S2 concatenation. -/
theorem getFilesForChip_none_keyError (ls : Listing) (chip : String) :
    getFilesForChip ls chip none = Except.error (PyErr.keyErr "agb") := rfl

theorem strContains_cat (a p b : String) : strContains (a ++ p ++ b) p = true := by
  have : (a ++ p ++ b).data = a.data ++ p.data ++ b.data := by
    simp [String.data_append]
  simp only [strContains, this]
  exact hasInfixL_sandwich p.data a.data b.data

/-- C2: an unrecognized platform makes `getFilesForChip` raise
`ValueError` whose message names the offending value and each of the
recognized keys `AGB`, `S1`, `S2`. -/
theorem getFilesForChip_unknown_platform (ls : Listing) (chip p : String)
    (h : p ∉ (["AGB", "S1", "S2"] : List String)) :
    ∃ m, getFilesForChip ls chip (some p) = Except.error (PyErr.valueErr m) ∧
      strContains m p = true ∧ strContains m "AGB" = true ∧
      strContains m "S1" = true ∧ strContains m "S2" = true := by
  have hA : ¬ p = "AGB" := by intro hh; exact h (by simp [hh])
  have h1 : ¬ p = "S1" := by intro hh; exact h (by simp [hh])
  have h2 : ¬ p = "S2" := by intro hh; exact h (by simp [hh])
  refine ⟨"Platform " ++ p ++ " not found, must be one of " ++ keysRepr, ?_, ?_, ?_, ?_, ?_⟩
  · simp [getFilesForChip, platformToFiles, hA, h1, h2]
  · have := strContains_cat "Platform " p (" not found, must be one of " ++ keysRepr)
    simpa [String.append_assoc] using this
  · have base : hasInfixL "AGB".data (" not found, must be one of " ++ keysRepr).data = true := by decide
    have := hasInfixL_append_left "AGB".data (" not found, must be one of " ++ keysRepr).data
      (("Platform " ++ p).data) base
    simp only [strContains]
    have hd : ("Platform " ++ p ++ " not found, must be one of " ++ keysRepr).data =
        ("Platform " ++ p).data ++ (" not found, must be one of " ++ keysRepr).data := by
      simp [String.data_append]
    rw [hd]; exact this
  · have base : hasInfixL "S1".data (" not found, must be one of " ++ keysRepr).data = true := by decide
    have := hasInfixL_append_left "S1".data (" not found, must be one of " ++ keysRepr).data
      (("Platform " ++ p).data) base
    simp only [strContains]
    have hd : ("Platform " ++ p ++ " not found, must be one of " ++ keysRepr).data =
        ("Platform " ++ p).data ++ (" not found, must be one of " ++ keysRepr).data := by
      simp [String.data_append]
    rw [hd]; exact this
  · have base : hasInfixL "S2".data (" not found, must be one of " ++ keysRepr).data = true := by decide
    have := hasInfixL_append_left "S2".data (" not found, must be one of " ++ keysRepr).data
      (("Platform " ++ p).data) base
    simp only [strContains]
    have hd : ("Platform " ++ p ++ " not found, must be one of " ++ keysRepr).data =
        ("Platform " ++ p).data ++ (" not found, must be one of " ++ keysRepr).data := by
      simp [String.data_append]
    rw [hd]; exact this

theorem getFilesForChip_unknown_platform_witness :
    ("S3" ∉ (["AGB", "S1", "S2"] : List String)) ∧
    ∃ m, getFilesForChip ⟨[], []⟩ "001b0634" (some "S3") = Except.error (PyErr.valueErr m) ∧
      strContains m "S3" = true ∧ strContains m "AGB" = true ∧
      strContains m "S1" = true ∧ strContains m "S2" = true :=
  ⟨by decide, getFilesForChip_unknown_platform ⟨[], []⟩ "001b0634" "S3" (by decide)⟩

/-- C4: membership characterization of the local-directory resolver
closures — a path is returned for a chip exactly when it comes from a
listed filename that starts with the chip id (and, for S1/S2,
additionally contains the platform tag as a substring). -/
theorem platformToFiles_matching (ls : Listing) (chip x : String) :
    (x ∈ agbFiles ls chip ↔
      ∃ f ∈ ls.agbDir, strStartsWith f chip = true ∧ x = pathJoin AGB_FOLDER f) ∧
    (x ∈ s1Files ls chip ↔
      ∃ f ∈ ls.trainDir, strStartsWith f chip = true ∧ strContains f "S1" = true ∧
        x = pathJoin TRAIN_FOLDER f) ∧
    (x ∈ s2Files ls chip ↔
      ∃ f ∈ ls.trainDir, strStartsWith f chip = true ∧ strContains f "S2" = true ∧
        x = pathJoin TRAIN_FOLDER f) := by
  refine ⟨?_, ?_, ?_⟩
  · simp only [agbFiles, List.mem_map, List.mem_filter]
    constructor
    · rintro ⟨f, ⟨hmem, hpred⟩, hx⟩; exact ⟨f, hmem, hpred, hx.symm⟩
    · rintro ⟨f, hmem, hpred, hx⟩; exact ⟨f, ⟨hmem, hpred⟩, hx.symm⟩
  · simp only [s1Files, List.mem_map, List.mem_filter, Bool.and_eq_true]
    constructor
    · rintro ⟨f, ⟨hmem, hs, hc⟩, hx⟩; exact ⟨f, hmem, hs, hc, hx.symm⟩
    · rintro ⟨f, hmem, hs, hc, hx⟩; exact ⟨f, ⟨hmem, hs, hc⟩, hx.symm⟩
  · simp only [s2Files, List.mem_map, List.mem_filter, Bool.and_eq_true]
    constructor
    · rintro ⟨f, ⟨hmem, hs, hc⟩, hx⟩; exact ⟨f, hmem, hs, hc, hx.symm⟩
    · rintro ⟨f, hmem, hs, hc, hx⟩; exact ⟨f, ⟨hmem, hs, hc⟩, hx.symm⟩

/-- C10: the metadata-driven selection of `downloadFilesForChipId`
keeps exactly the rows whose `chip_id` column equals the requested id;
a row whose chip id merely extends the requested one (the requested id
being a proper initial segment) is never selected, and
`downloadFilesForChipId` downloads exactly that selection. -/
theorem selectRows_exact_match (metadata : List Row) (c : String) :
    (∀ r, r ∈ selectRows metadata c ↔ r ∈ metadata ∧ r.chip_id = c) ∧
    (∀ r, r ∈ metadata → strStartsWith r.chip_id c = true → r.chip_id ≠ c →
      r ∉ selectRows metadata c) ∧
    (∀ download_dir region folder st,
      downloadFilesForChipId c download_dir metadata region folder st =
        downloadRows (selectRows metadata c) download_dir region folder st) := by
  refine ⟨?_, ?_, fun _ _ _ _ => rfl⟩
  · intro r; simp [selectRows, List.mem_filter]
  · intro r _ _ hne hmem
    have := (List.mem_filter.mp hmem).2
    exact hne (by simpa using this)

theorem selectRows_exact_match_witness :
    (⟨"aa1", "f", 0, 0, "u", "e", "a"⟩ : Row) ∈ [(⟨"aa1", "f", 0, 0, "u", "e", "a"⟩ : Row)] ∧
    strStartsWith "aa1" "aa" = true ∧ "aa1" ≠ "aa" ∧
    (⟨"aa1", "f", 0, 0, "u", "e", "a"⟩ : Row) ∉ selectRows [⟨"aa1", "f", 0, 0, "u", "e", "a"⟩] "aa" :=
  ⟨by decide, by decide, by decide,
    (selectRows_exact_match [⟨"aa1", "f", 0, 0, "u", "e", "a"⟩] "aa").2.1
      ⟨"aa1", "f", 0, 0, "u", "e", "a"⟩ (by decide) (by decide) (by decide)⟩

/-- C9: `downloadFile` never reads the `cksum` or `size` columns — two
metadata rows that agree on every other column produce identical
behaviour (same result, same state, same trace), whatever their
checksums and sizes, so a checksum mismatch is undetectable. -/
theorem downloadFile_ignores_cksum (r1 r2 : Row)
    (hc : r1.chip_id = r2.chip_id) (hf : r1.filename = r2.filename)
    (hus : r1.s3path_us = r2.s3path_us) (heu : r1.s3path_eu = r2.s3path_eu)
    (has : r1.s3path_as = r2.s3path_as) :
    ∀ download_dir region folder st,
      downloadFile r1 download_dir region folder st =
        downloadFile r2 download_dir region folder st := by
  intro download_dir region folder st
  cases r1
  cases r2
  simp only at hc hf hus heu has
  subst hc hf hus heu has
  rfl

theorem downloadFile_ignores_cksum_witness :
    downloadFile ⟨"001b0634", "001b0634_S1_00.tif", 1049524, 3250666344,
        "s3://u/x/f.tif", "s3://e/x/f.tif", "s3://a/x/f.tif"⟩ "d" "eu" "train_features" ⟨[]⟩ =
      downloadFile ⟨"001b0634", "001b0634_S1_00.tif", 0, 999,
        "s3://u/x/f.tif", "s3://e/x/f.tif", "s3://a/x/f.tif"⟩ "d" "eu" "train_features" ⟨[]⟩ :=
  downloadFile_ignores_cksum
    ⟨"001b0634", "001b0634_S1_00.tif", 1049524, 3250666344,
      "s3://u/x/f.tif", "s3://e/x/f.tif", "s3://a/x/f.tif"⟩
    ⟨"001b0634", "001b0634_S1_00.tif", 0, 999,
      "s3://u/x/f.tif", "s3://e/x/f.tif", "s3://a/x/f.tif"⟩
    rfl rfl rfl rfl rfl "d" "eu" "train_features" ⟨[]⟩

/-- C3: when `downloadFile` succeeds it fetched at most once; if the
target path already existed it changed nothing and only logged a skip;
and an immediate second invocation with the same inputs is a fetch-free
no-op returning success. -/
theorem downloadFile_skip_idempotent (row : Row) (dl region folder : String)
    (st st1 : FilesSt) (evs1 : List Event)
    (h : downloadFile row dl region folder st = Except.ok (st1, evs1)) :
    fetchCount evs1 ≤ 1 ∧
    (pathJoin3 dl folder row.filename ∈ st.files →
      st1 = st ∧ evs1 = [Event.skip (pathJoin3 dl folder row.filename)]) ∧
    downloadFile row dl region folder st1 =
      Except.ok (st1, [Event.skip (pathJoin3 dl folder row.filename)]) := by
  unfold downloadFile at h ⊢
  simp only [Bind.bind, Except.bind] at h ⊢
  cases hs : s3pathField row region with
  | error e => simp [hs] at h
  | ok s0 =>
    simp only [hs] at h
    dsimp only
    cases hb : parseBucket s0 with
    | error e => simp [hb] at h
    | ok bk =>
      simp only [hb] at h
      dsimp only
      cases hk : parseKey s0 with
      | error e => simp [hk] at h
      | ok ky =>
        simp only [hk] at h
        dsimp only
        by_cases hcb : st.files.contains (pathJoin3 dl folder row.filename) = true
        · rw [if_pos hcb] at h
          simp only [Except.ok.injEq, Prod.mk.injEq] at h
          obtain ⟨h1, h2⟩ := h
          subst h1; subst h2
          refine ⟨by simp [fetchCount, isFetch], fun _ => ⟨rfl, rfl⟩, ?_⟩
          rw [if_pos hcb]
        · rw [if_neg hcb] at h
          simp only [Except.ok.injEq, Prod.mk.injEq] at h
          obtain ⟨h1, h2⟩ := h
          subst h1; subst h2
          have hmem : pathJoin3 dl folder row.filename ∉ st.files := by
            intro hm; exact hcb (by simpa using hm)
          have hc1 : (FilesSt.mk (pathJoin3 dl folder row.filename :: st.files)).files.contains
              (pathJoin3 dl folder row.filename) = true := by simp
          refine ⟨by simp [fetchCount, isFetch], fun hcc => absurd hcc hmem, ?_⟩
          rw [if_pos hc1]

theorem downloadFile_skip_idempotent_witness :
    fetchCount [Event.fetch "bucket" "train_features/001b0634_S1_00.tif"
        "d/train_features/001b0634_S1_00.tif"] ≤ 1 ∧
    (pathJoin3 "d" "train_features" scenarioRow.filename ∈ ([] : List String) →
      (⟨["d/train_features/001b0634_S1_00.tif"]⟩ : FilesSt) = ⟨[]⟩ ∧
      [Event.fetch "bucket" "train_features/001b0634_S1_00.tif"
        "d/train_features/001b0634_S1_00.tif"] =
        [Event.skip (pathJoin3 "d" "train_features" scenarioRow.filename)]) ∧
    downloadFile scenarioRow "d" "eu" "train_features"
        ⟨["d/train_features/001b0634_S1_00.tif"]⟩ =
      Except.ok (⟨["d/train_features/001b0634_S1_00.tif"]⟩,
        [Event.skip (pathJoin3 "d" "train_features" scenarioRow.filename)]) :=
  downloadFile_skip_idempotent scenarioRow "d" "eu" "train_features" ⟨[]⟩
    ⟨["d/train_features/001b0634_S1_00.tif"]⟩
    [Event.fetch "bucket" "train_features/001b0634_S1_00.tif"
      "d/train_features/001b0634_S1_00.tif"] (by rfl)

theorem ensureDir_noop (p : String) (acc : DirsSt × List String)
    (h : acc.1.dirs.contains p = true) : ensureDir p acc = acc := by
  unfold ensureDir
  rw [if_pos h]

theorem ensureDir_contains_self (p : String) (acc : DirsSt × List String) :
    ((ensureDir p acc).1).dirs.contains p = true := by
  unfold ensureDir
  by_cases h : acc.1.dirs.contains p = true
  · rw [if_pos h]; exact h
  · rw [if_neg h]; simp [List.contains_cons]

theorem ensureDir_mono (p q : String) (acc : DirsSt × List String)
    (h : acc.1.dirs.contains q = true) : ((ensureDir p acc).1).dirs.contains q = true := by
  unfold ensureDir
  by_cases hp : acc.1.dirs.contains p = true
  · rw [if_pos hp]; exact h
  · rw [if_neg hp]
    have hq : q ∈ acc.1.dirs := by simpa using h
    simp [List.contains_cons, hq]

theorem ensureDir_made (p q : String) (acc : DirsSt × List String)
    (h : q ∈ (ensureDir p acc).2) :
    q ∈ acc.2 ∨ (q = p ∧ acc.1.dirs.contains p = false) := by
  unfold ensureDir at h
  by_cases hp : acc.1.dirs.contains p = true
  · rw [if_pos hp] at h; exact Or.inl h
  · rw [if_neg hp] at h
    simp only [List.mem_append, List.mem_singleton] at h
    rcases h with h | h
    · exact Or.inl h
    · exact Or.inr ⟨h, by simpa using hp⟩

theorem ensureDir_antimono (p q : String) (acc : DirsSt × List String)
    (h : ((ensureDir p acc).1).dirs.contains q = false) :
    acc.1.dirs.contains q = false := by
  unfold ensureDir at h
  by_cases hp : acc.1.dirs.contains p = true
  · rwa [if_pos hp] at h
  · rw [if_neg hp] at h
    simp only [List.contains_cons, Bool.or_eq_false_iff] at h
    exact h.2

/-- C6: `checkForDownloadDir` is idempotent: when the root and both
subdirectories already exist it returns the state unchanged with no
`os.makedirs` call; every directory it does create was absent
beforehand; and running it a second time on its own output makes no
`os.makedirs` call. -/
theorem checkForDownloadDir_idempotent (d : String) (st : DirsSt) :
    (st.dirs.contains d = true →
      st.dirs.contains (pathJoin d "train_features") = true →
      st.dirs.contains (pathJoin d "train_agbm") = true →
      checkForDownloadDir d st = (st, [])) ∧
    (∀ p, p ∈ (checkForDownloadDir d st).2 → st.dirs.contains p = false) ∧
    checkForDownloadDir d (checkForDownloadDir d st).1 =
      ((checkForDownloadDir d st).1, []) := by
  refine ⟨?_, ?_, ?_⟩
  · intro h1 h2 h3
    unfold checkForDownloadDir
    rw [ensureDir_noop d (st, []) h1, ensureDir_noop _ (st, []) h2,
      ensureDir_noop _ (st, []) h3]
  · intro p hp
    unfold checkForDownloadDir at hp
    rcases ensureDir_made _ _ _ hp with hp2 | ⟨rfl, habs⟩
    · rcases ensureDir_made _ _ _ hp2 with hp3 | ⟨rfl, habs⟩
      · rcases ensureDir_made _ _ _ hp3 with hp4 | ⟨rfl, habs⟩
        · simp at hp4
        · exact habs
      · exact ensureDir_antimono _ _ _ habs
    · exact ensureDir_antimono _ _ _ (ensureDir_antimono _ _ _ habs)
  · have h1 : ((checkForDownloadDir d st).1).dirs.contains d = true := by
      unfold checkForDownloadDir
      exact ensureDir_mono _ _ _ (ensureDir_mono _ _ _ (ensureDir_contains_self _ _))
    have h2 : ((checkForDownloadDir d st).1).dirs.contains (pathJoin d "train_features") = true := by
      unfold checkForDownloadDir
      exact ensureDir_mono _ _ _ (ensureDir_contains_self _ _)
    have h3 : ((checkForDownloadDir d st).1).dirs.contains (pathJoin d "train_agbm") = true := by
      unfold checkForDownloadDir
      exact ensureDir_contains_self _ _
    conv_lhs => rw [checkForDownloadDir]
    rw [ensureDir_noop d ((checkForDownloadDir d st).1, []) h1,
      ensureDir_noop (pathJoin d "train_features") ((checkForDownloadDir d st).1, []) h2,
      ensureDir_noop (pathJoin d "train_agbm") ((checkForDownloadDir d st).1, []) h3]

theorem checkForDownloadDir_idempotent_witness :
    checkForDownloadDir "d" ⟨["d", "d/train_features", "d/train_agbm"]⟩ =
      (⟨["d", "d/train_features", "d/train_agbm"]⟩, []) :=
  (checkForDownloadDir_idempotent "d" ⟨["d", "d/train_features", "d/train_agbm"]⟩).1
    (by decide) (by decide) (by decide)

theorem joinL_not_abs_not_slash (a b : List Char) (ha : a.isEmpty = false)
    (hsl : hasPrefixL [Char.ofNat 47] a.reverse = false)
    (hb : hasPrefixL [Char.ofNat 47] b = false) :
    joinL a b = a ++ Char.ofNat 47 :: b := by
  unfold joinL
  rw [if_neg (by simp [hb]), if_neg (by simp [ha]), if_neg (by simp [hsl])]

theorem hasPrefixL_slash_rev (l m : List Char) (c : Char)
    (hc : (Char.ofNat 47 == c) = false) :
    hasPrefixL [Char.ofNat 47] ((l ++ m ++ [c]).reverse) = false := by
  simp [List.reverse_append, hasPrefixL, hc]

theorem pathJoin3_flat (dest : String) (h1 : dest.data.isEmpty = false)
    (h2 : strEndsWith dest "/" = false) :
    pathJoin3 dest "train_features" "001b0634_S1_00.tif" =
      dest ++ "/train_features/001b0634_S1_00.tif" := by
  have hsl : hasPrefixL [Char.ofNat 47] dest.data.reverse = false := by
    have hrev : ("/" : String).data.reverse = [Char.ofNat 47] := by decide
    unfold strEndsWith at h2
    rwa [hrev] at h2
  have hne : ∀ x : List Char, (dest.data ++ Char.ofNat 47 :: x).isEmpty = false := by
    intro x
    cases hd : dest.data with
    | nil => rw [hd] at h1; simp [List.isEmpty] at h1
    | cons c cs => rfl
  unfold pathJoin3 pathJoin
  rw [joinL_not_abs_not_slash dest.data "train_features".data h1 hsl (by decide)]
  have key : joinL (String.mk (dest.data ++ Char.ofNat 47 :: "train_features".data)).data
      "001b0634_S1_00.tif".data =
      dest.data ++ Char.ofNat 47 :: "train_features".data ++
        Char.ofNat 47 :: "001b0634_S1_00.tif".data := by
    have hdata : (String.mk (dest.data ++ Char.ofNat 47 :: "train_features".data)).data =
        dest.data ++ Char.ofNat 47 :: "train_features".data := rfl
    rw [hdata]
    have split : Char.ofNat 47 :: "train_features".data =
        (Char.ofNat 47 :: "train_feature".data) ++ [Char.ofNat 115] := by decide
    have := joinL_not_abs_not_slash (dest.data ++ Char.ofNat 47 :: "train_features".data)
      "001b0634_S1_00.tif".data (hne _) ?_ (by decide)
    · rw [this, List.append_assoc]
    · rw [split, ← List.append_assoc]
      exact hasPrefixL_slash_rev _ _ _ (by decide)
  rw [key]
  apply String.ext
  have hd2 : (dest ++ "/train_features/001b0634_S1_00.tif").data =
      dest.data ++ "/train_features/001b0634_S1_00.tif".data := String.data_append _ _
  rw [hd2]
  have : ("/train_features/001b0634_S1_00.tif" : String).data =
      Char.ofNat 47 :: "train_features".data ++ Char.ofNat 47 :: "001b0634_S1_00.tif".data := by
    decide
  rw [this]
  rw [List.append_assoc]

/-- C5: on the scenario row with region `eu`, `downloadFile` resolves
the bucket to `bucket` (first path segment after the scheme), the key
to `train_features/001b0634_S1_00.tif` (the remainder), and fetches
into `dest/train_features/001b0634_S1_00.tif`, for any destination
that is non-empty and has no trailing slash. -/
theorem downloadFile_scenario_paths (dest : String)
    (h1 : dest.data.isEmpty = false)
    (h2 : strEndsWith dest "/" = false) :
    parseBucket scenarioRow.s3path_eu = Except.ok "bucket" ∧
    parseKey scenarioRow.s3path_eu = Except.ok "train_features/001b0634_S1_00.tif" ∧
    downloadFile scenarioRow dest "eu" "train_features" ⟨[]⟩ =
      Except.ok (⟨[dest ++ "/train_features/001b0634_S1_00.tif"]⟩,
        [Event.fetch "bucket" "train_features/001b0634_S1_00.tif"
          (dest ++ "/train_features/001b0634_S1_00.tif")]) := by
  refine ⟨by rfl, by rfl, ?_⟩
  unfold downloadFile
  simp only [Bind.bind, Except.bind]
  have e1 : s3pathField scenarioRow "eu" =
      Except.ok "s3://bucket/train_features/001b0634_S1_00.tif" := rfl
  rw [e1]
  dsimp only
  have e2 : parseBucket "s3://bucket/train_features/001b0634_S1_00.tif" =
      Except.ok "bucket" := rfl
  rw [e2]
  dsimp only
  have e3 : parseKey "s3://bucket/train_features/001b0634_S1_00.tif" =
      Except.ok "train_features/001b0634_S1_00.tif" := rfl
  rw [e3]
  dsimp only
  have efn : scenarioRow.filename = "001b0634_S1_00.tif" := rfl
  rw [efn, pathJoin3_flat dest h1 h2]
  rw [if_neg (by simp)]

theorem downloadFile_scenario_paths_witness :
    ("dest" : String).data.isEmpty = false ∧ strEndsWith "dest" "/" = false ∧
    downloadFile scenarioRow "dest" "eu" "train_features" ⟨[]⟩ =
      Except.ok (⟨["dest" ++ "/train_features/001b0634_S1_00.tif"]⟩,
        [Event.fetch "bucket" "train_features/001b0634_S1_00.tif"
          ("dest" ++ "/train_features/001b0634_S1_00.tif")]) :=
  ⟨by decide, by decide, (downloadFile_scenario_paths "dest" (by decide) (by decide)).2.2⟩

theorem sample_length (rows : List Row) (idxs : List Nat)
    (hbound : ∀ i ∈ idxs, i < rows.length) :
    (sample rows idxs).length = idxs.length := by
  induction idxs with
  | nil => rfl
  | cons i rest ih =>
    have hi : i < rows.length := hbound i (List.mem_cons_self i rest)
    obtain ⟨r, hr⟩ : ∃ r, rows.get? i = some r := by
      cases h : rows.get? i with
      | none => exact absurd hi (Nat.not_lt.mpr (List.get?_eq_none.mp h))
      | some r => exact ⟨r, rfl⟩
    unfold sample
    rw [List.filterMap_cons_some hr, List.length_cons]
    have := ih (fun j hj => hbound j (List.mem_cons_of_mem _ hj))
    unfold sample at this
    rw [this, List.length_cons]

theorem sample_map_nodup (rows : List Row) (idxs : List Nat)
    (hnd : idxs.Nodup) (hbound : ∀ i ∈ idxs, i < rows.length)
    (hids : (rows.map Row.chip_id).Nodup) :
    ((sample rows idxs).map Row.chip_id).Nodup := by
  induction idxs with
  | nil => simp [sample]
  | cons i rest ih =>
    have hi : i < rows.length := hbound i (List.mem_cons_self i rest)
    obtain ⟨r, hr⟩ : ∃ r, rows.get? i = some r := by
      cases h : rows.get? i with
      | none => exact absurd hi (Nat.not_lt.mpr (List.get?_eq_none.mp h))
      | some r => exact ⟨r, rfl⟩
    unfold sample
    rw [List.filterMap_cons_some hr, List.map_cons, List.nodup_cons]
    refine ⟨?_, ih (List.nodup_cons.mp hnd).2 (fun j hj => hbound j (List.mem_cons_of_mem _ hj))⟩
    intro hmem
    obtain ⟨r', hr'mem, hcid⟩ := List.mem_map.mp hmem
    obtain ⟨j, hjmem, hj⟩ := List.mem_filterMap.mp hr'mem
    have hq : (rows.map Row.chip_id)[i]? = (rows.map Row.chip_id)[j]? := by
      rw [List.getElem?_map, List.getElem?_map, ← List.get?_eq_getElem?,
        ← List.get?_eq_getElem?, hr, hj]
      simp [hcid]
    have hij : i = j := List.getElem?_inj (by simpa using hi) hids hq
    exact (List.nodup_cons.mp hnd).1 (hij ▸ hjmem)

/-- C7: sampling `n` ground-truth rows without replacement (distinct
in-range indices) yields exactly `n` rows whose chip identifiers are
pairwise distinct, provided the metadata lists each chip id once. -/
theorem sample_distinct_chips (rows : List Row) (idxs : List Nat) (n : Nat)
    (hlen : idxs.length = n) (hnd : idxs.Nodup)
    (hbound : ∀ i ∈ idxs, i < rows.length)
    (hids : (rows.map Row.chip_id).Nodup) :
    (sample rows idxs).length = n ∧
    ((sample rows idxs).map Row.chip_id).Nodup :=
  ⟨hlen ▸ sample_length rows idxs hbound, sample_map_nodup rows idxs hnd hbound hids⟩

theorem sample_distinct_chips_witness :
    ([1, 0] : List Nat).length = 2 ∧
    (sample [⟨"a", "fa", 0, 0, "u", "e", "s"⟩, ⟨"b", "fb", 0, 0, "u", "e", "s"⟩,
        ⟨"c", "fc", 0, 0, "u", "e", "s"⟩] [1, 0]).length = 2 ∧
    ((sample [⟨"a", "fa", 0, 0, "u", "e", "s"⟩, ⟨"b", "fb", 0, 0, "u", "e", "s"⟩,
        ⟨"c", "fc", 0, 0, "u", "e", "s"⟩] [1, 0]).map Row.chip_id).Nodup :=
  ⟨by decide, sample_distinct_chips _ [1, 0] 2 (by decide) (by decide)
    (by decide) (by decide) |>.1,
   (sample_distinct_chips [⟨"a", "fa", 0, 0, "u", "e", "s"⟩, ⟨"b", "fb", 0, 0, "u", "e", "s"⟩,
      ⟨"c", "fc", 0, 0, "u", "e", "s"⟩] [1, 0] 2 (by decide) (by decide)
      (by decide) (by decide)).2⟩

theorem downloadFile_one_event (row : Row) (dl region folder : String)
    (st st1 : FilesSt) (evs : List Event)
    (h : downloadFile row dl region folder st = Except.ok (st1, evs)) :
    ∃ e, evs = [e] ∧ eventPath e = pathJoin3 dl folder row.filename := by
  unfold downloadFile at h
  simp only [Bind.bind, Except.bind] at h
  cases hs : s3pathField row region with
  | error e => simp [hs] at h
  | ok s0 =>
    simp only [hs] at h
    cases hb : parseBucket s0 with
    | error e => simp [hb] at h
    | ok bk =>
      simp only [hb] at h
      cases hk : parseKey s0 with
      | error e => simp [hk] at h
      | ok ky =>
        simp only [hk] at h
        by_cases hcb : st.files.contains (pathJoin3 dl folder row.filename) = true
        · rw [if_pos hcb] at h
          simp only [Except.ok.injEq, Prod.mk.injEq] at h
          exact ⟨Event.skip (pathJoin3 dl folder row.filename), h.2.symm, rfl⟩
        · rw [if_neg hcb] at h
          simp only [Except.ok.injEq, Prod.mk.injEq] at h
          exact ⟨Event.fetch bk ky (pathJoin3 dl folder row.filename), h.2.symm, rfl⟩

theorem downloadRows_trace (rows : List Row) (dl region folder : String) :
    ∀ (st st1 : FilesSt) (evs : List Event),
    downloadRows rows dl region folder st = Except.ok (st1, evs) →
    List.Forall₂ (fun (r : Row) (e : Event) =>
      eventPath e = pathJoin3 dl folder r.filename) rows evs := by
  induction rows with
  | nil =>
    intro st st1 evs h
    unfold downloadRows at h
    simp only [Except.ok.injEq, Prod.mk.injEq] at h
    rw [← h.2]
    exact List.Forall₂.nil
  | cons r rest ih =>
    intro st st1 evs h
    unfold downloadRows at h
    simp only [Bind.bind, Except.bind] at h
    cases hd : downloadFile r dl region folder st with
    | error e => rw [hd] at h; simp at h
    | ok p =>
      obtain ⟨stA, evsA⟩ := p
      rw [hd] at h
      dsimp only at h
      cases hrest : downloadRows rest dl region folder stA with
      | error e => rw [hrest] at h; simp at h
      | ok q =>
        obtain ⟨stB, evsB⟩ := q
        rw [hrest] at h
        dsimp only at h
        simp only [Except.ok.injEq, Prod.mk.injEq] at h
        obtain ⟨e1, he1, hp1⟩ := downloadFile_one_event r dl region folder st stA evsA hd
        rw [← h.2, he1]
        exact List.Forall₂.cons hp1 (ih stA stB evsB hrest)

theorem downloadChipsLoop_trace (dl region : String) (features : List Row) :
    ∀ (sampled : List Row) (st st' : FilesSt) (evs : List Event),
    downloadChipsLoop sampled dl region features st = Except.ok (st', evs) →
    ∃ segs : List (List Event), evs = segs.flatten ∧
      List.Forall₂ (fun (row : Row) (seg : List Event) =>
        ∃ featEvs agbmEv, seg = featEvs ++ [agbmEv] ∧
          List.Forall₂ (fun (r : Row) (e : Event) =>
            eventPath e = pathJoin3 dl "train_features" r.filename)
            (selectRows features row.chip_id) featEvs ∧
          eventPath agbmEv = pathJoin3 dl "train_agbm" row.filename) sampled segs := by
  intro sampled
  induction sampled with
  | nil =>
    intro st st' evs h
    unfold downloadChipsLoop at h
    simp only [Except.ok.injEq, Prod.mk.injEq] at h
    rw [← h.2]
    exact ⟨[], rfl, List.Forall₂.nil⟩
  | cons row rest ih =>
    intro st st' evs h
    unfold downloadChipsLoop at h
    simp only [Bind.bind, Except.bind] at h
    cases hf : downloadFilesForChipId row.chip_id dl features region "train_features" st with
    | error e => rw [hf] at h; simp at h
    | ok p =>
      obtain ⟨stA, evsA⟩ := p
      rw [hf] at h
      dsimp only at h
      cases hg : downloadFile row dl region "train_agbm" stA with
      | error e => rw [hg] at h; simp at h
      | ok q =>
        obtain ⟨stB, evsB⟩ := q
        rw [hg] at h
        dsimp only at h
        cases hr : downloadChipsLoop rest dl region features stB with
        | error e => rw [hr] at h; simp at h
        | ok w =>
          obtain ⟨stC, evsC⟩ := w
          rw [hr] at h
          dsimp only at h
          simp only [Except.ok.injEq, Prod.mk.injEq] at h
          obtain ⟨segs, hjoin, hall⟩ := ih stB stC evsC hr
          obtain ⟨e2, he2, hp2⟩ := downloadFile_one_event row dl region "train_agbm" stA stB evsB hg
          have hfeat := downloadRows_trace (selectRows features row.chip_id) dl region
            "train_features" st stA evsA hf
          refine ⟨(evsA ++ [e2]) :: segs, ?_, ?_⟩
          · rw [← h.2, he2, hjoin]
            simp [List.flatten, List.append_assoc]
          · exact List.Forall₂.cons ⟨evsA, e2, rfl, hfeat, hp2⟩ hall

/-- C8: a successful `downloadNChips` run produces a trace that splits
into one consecutive block per sampled ground-truth row, in sample
order; within each block come first the downloads of exactly the
feature rows matching that chip id (into `train_features`, in metadata
order), followed by the single download of the ground-truth row itself
(into `train_agbm`). -/
theorem downloadNChips_sequential (idxs : List Nat) (agbm features : List Row)
    (dl region : String) (dirSt : DirsSt) (st : FilesSt)
    (dirSt1 : DirsSt) (made : List String) (st1 : FilesSt) (evs : List Event)
    (h : downloadNChips idxs agbm features dl region dirSt st =
      Except.ok (dirSt1, made, st1, evs)) :
    ∃ segs : List (List Event), evs = segs.flatten ∧
      List.Forall₂ (fun (row : Row) (seg : List Event) =>
        ∃ featEvs agbmEv, seg = featEvs ++ [agbmEv] ∧
          List.Forall₂ (fun (r : Row) (e : Event) =>
            eventPath e = pathJoin3 dl "train_features" r.filename)
            (selectRows features row.chip_id) featEvs ∧
          eventPath agbmEv = pathJoin3 dl "train_agbm" row.filename)
        (sample agbm idxs) segs := by
  unfold downloadNChips at h
  simp only [Bind.bind, Except.bind] at h
  cases hl : downloadChipsLoop (sample agbm idxs) dl region features st with
  | error e => rw [hl] at h; simp at h
  | ok p =>
    obtain ⟨stA, evsA⟩ := p
    rw [hl] at h
    dsimp only at h
    simp only [Except.ok.injEq, Prod.mk.injEq] at h
    rw [← h.2.2.2]
    exact downloadChipsLoop_trace dl region features (sample agbm idxs) st stA evsA hl

theorem downloadNChips_sequential_witness :
    ∃ segs : List (List Event),
      [Event.fetch "be" "train_features/aaa_S1_00.tif" "d/train_features/aaa_S1_00.tif",
       Event.fetch "be" "train_agbm/aaa_agbm.tif" "d/train_agbm/aaa_agbm.tif"] = segs.flatten ∧
      List.Forall₂ (fun (row : Row) (seg : List Event) =>
        ∃ featEvs agbmEv, seg = featEvs ++ [agbmEv] ∧
          List.Forall₂ (fun (r : Row) (e : Event) =>
            eventPath e = pathJoin3 "d" "train_features" r.filename)
            (selectRows [⟨"aaa", "aaa_S1_00.tif", 3, 4, "s3://bu/train_features/aaa_S1_00.tif",
              "s3://be/train_features/aaa_S1_00.tif", "s3://ba/train_features/aaa_S1_00.tif"⟩]
              row.chip_id) featEvs ∧
          eventPath agbmEv = pathJoin3 "d" "train_agbm" row.filename)
        (sample [⟨"aaa", "aaa_agbm.tif", 1, 2, "s3://bu/train_agbm/aaa_agbm.tif",
          "s3://be/train_agbm/aaa_agbm.tif", "s3://ba/train_agbm/aaa_agbm.tif"⟩] [0]) segs :=
  downloadNChips_sequential [0]
    [⟨"aaa", "aaa_agbm.tif", 1, 2, "s3://bu/train_agbm/aaa_agbm.tif",
      "s3://be/train_agbm/aaa_agbm.tif", "s3://ba/train_agbm/aaa_agbm.tif"⟩]
    [⟨"aaa", "aaa_S1_00.tif", 3, 4, "s3://bu/train_features/aaa_S1_00.tif",
      "s3://be/train_features/aaa_S1_00.tif", "s3://ba/train_features/aaa_S1_00.tif"⟩]
    "d" "eu" ⟨[]⟩ ⟨[]⟩
    ⟨["d/train_agbm", "d/train_features", "d"]⟩ ["d", "d/train_features", "d/train_agbm"]
    ⟨["d/train_agbm/aaa_agbm.tif", "d/train_features/aaa_S1_00.tif"]⟩
    [Event.fetch "be" "train_features/aaa_S1_00.tif" "d/train_features/aaa_S1_00.tif",
     Event.fetch "be" "train_agbm/aaa_agbm.tif" "d/train_agbm/aaa_agbm.tif"]
    (by rfl)
